import Mathlib

/-!
# Verification of the `config-manager` repository's refreshed store

Shallow embedding of `pkg/cm/rcm` (`RedisConfigManager`): the snapshot
(`config map[string]string`), `LoadConfig` (fetch, JSON-decode, stringify via
`fmt.Sprintf("%v", value)`, merge under lock), and the ten typed getters
(`strconv.Atoi`, `strconv.ParseFloat`, `strconv.ParseBool`,
`time.ParseDuration`).

Go maps are modelled as association lists with `mapGet`/`mapSet`; the remote
fetch and JSON decode are modelled by a `LoadInput` that is either a fetch
error, an undecodable payload, or the decoded `map[string]any` (`encoding/json`
decodes every JSON number into `float64`; a number value is represented here by
the shortest decimal form of that `float64`, which for round-trippable literals
is the literal itself). `fmt.Sprintf("%v", x)` on a `float64` is
`strconv.FormatFloat(x, 'g', -1, 64)`, modelled digit-for-digit below.
-/

/-- A scalar value of the decoded JSON payload, i.e. what `encoding/json`
stores in `map[string]any`: `nil`, `bool`, `string`, or `float64`. A `float64`
is represented by its shortest decimal form: sign, significant digits `ds`
(no trailing zeros), and decimal point position `dp`, so the value is
`0.ds × 10^dp`. Nested arrays/objects are not modelled (the specification's
payloads are flat). -/
inductive GoValue where
  | vNull
  | vBool (b : Bool)
  | vStr (s : String)
  | vNum (neg : Bool) (ds : List Nat) (dp : Int)
deriving DecidableEq

/-- The character for a decimal digit value. -/
def digitChar (d : Nat) : Char := Char.ofNat (48 + d)

/-- A digit list as a string. -/
def digitsStr (ds : List Nat) : String := String.mk (ds.map digitChar)

/-- Exponent part of `strconv`'s `%e` output: `e`, a sign, and the exponent
with at least two digits. -/
def expPart (e : Int) : String :=
  let a := e.natAbs
  "e" ++ (if e < 0 then "-" else "+") ++ (if a < 10 then "0" ++ toString a else toString a)

/-- `strconv.fmtE` for the shortest digits: leading digit, fractional digits
when there is more than one, exponent `dp - 1`. -/
def fmtE (neg : Bool) (ds : List Nat) (dp : Int) : String :=
  (if neg then "-" else "")
    ++ digitsStr (ds.take 1)
    ++ (if 2 ≤ ds.length then "." ++ digitsStr (ds.drop 1) else "")
    ++ expPart (dp - 1)

/-- Digit of `ds` at (possibly negative) position `i`, zero outside. -/
def digitAt (ds : List Nat) (i : Int) : Nat :=
  if 0 ≤ i then ds.getD i.toNat 0 else 0

/-- `strconv.fmtF` for the shortest digits with `max(nd - dp, 0)` decimals:
integer part is digit positions `0..dp-1` (or `0` when `dp ≤ 0`), fractional
part the positions from `dp` on. -/
def fmtF (neg : Bool) (ds : List Nat) (dp : Int) : String :=
  let intPart :=
    if dp ≤ 0 then "0"
    else digitsStr ((List.range dp.toNat).map (fun i => ds.getD i 0))
  let decs : Nat := ((ds.length : Int) - dp).toNat
  let frac :=
    if decs = 0 then ""
    else "." ++ digitsStr ((List.range decs).map (fun j => digitAt ds (dp + (j : Int))))
  (if neg then "-" else "") ++ intPart ++ frac

/-- `strconv.FormatFloat(x, 'g', -1, 64)` on the shortest decimal form of `x`:
zero prints as `0`; otherwise `%e` is used when the decimal exponent `dp - 1`
is below `-4` or at least `6` (the shortest-precision rule of
`strconv.formatDigits`), else `%f`. -/
def goFormatFloat (neg : Bool) (ds : List Nat) (dp : Int) : String :=
  if ds = [] ∨ ds = [0] then (if neg then "-0" else "0")
  else if dp - 1 < -4 ∨ 6 ≤ dp - 1 then fmtE neg ds dp
  else fmtF neg ds dp

/-- `fmt.Sprintf("%v", value)` on a decoded JSON scalar, as `LoadConfig`
applies it: `<nil>` for null, `true`/`false` for bools, the string itself for
strings, and shortest-`%g` formatting for `float64` numbers. -/
def goFormatValue : GoValue → String
  | .vNull => "<nil>"
  | .vBool true => "true"
  | .vBool false => "false"
  | .vStr s => s
  | .vNum neg ds dp => goFormatFloat neg ds dp

/-- Go map read `v, ok := m[k]` on the association-list model. -/
def mapGet {α : Type} (m : List (String × α)) (k : String) : Option α :=
  match m with
  | [] => none
  | (k', v) :: rest => if k' = k then some v else mapGet rest k

/-- Go map write `m[k] = v` on the association-list model: replaces the
entry for `k`, or appends one. -/
def mapSet (m : List (String × String)) (k v : String) : List (String × String) :=
  match m with
  | [] => [(k, v)]
  | (k', v') :: rest => if k' = k then (k, v) :: rest else (k', v') :: mapSet rest k v

/-- The mutable state of a `RedisConfigManager`: the snapshot `config` and the
`updatedAt` timestamp (time modelled as `Nat`). -/
structure RCMState where
  config : List (String × String)
  updatedAt : Nat
deriving DecidableEq

/-- Value of a nonempty all-digit character list. -/
def natOfDigits (ds : List Char) : Nat :=
  ds.foldl (fun a c => a * 10 + (c.toNat - 48)) 0

/-- All-digit check plus value: `none` when the list is empty or has a
non-digit. -/
def digitsVal (cs : List Char) : Option Nat :=
  if cs = [] then none
  else if cs.all Char.isDigit then some (natOfDigits cs) else none

/-- `strconv.Atoi` (= `ParseInt(s, 10, 0)` on a 64-bit platform): an optional
single sign, then one or more decimal digits, value within
`[-2^63, 2^63 - 1]`; anything else (including out of range) is an error. -/
def goAtoi (s : String) : Option Int :=
  let core : Bool → List Char → Option Int := fun neg ds =>
    match digitsVal ds with
    | none => none
    | some n =>
      if neg then (if n ≤ 2 ^ 63 then some (-(n : Int)) else none)
      else (if n ≤ 2 ^ 63 - 1 then some (n : Int) else none)
  match s.toList with
  | '+' :: rest => core false rest
  | '-' :: rest => core true rest
  | cs => core false cs

/-- `strconv.ParseBool`: accepts exactly `1 t T TRUE true True` as `true` and
`0 f F FALSE false False` as `false`; every other string is an error. -/
def goParseBool (s : String) : Option Bool :=
  if s = "1" ∨ s = "t" ∨ s = "T" ∨ s = "TRUE" ∨ s = "true" ∨ s = "True" then some true
  else if s = "0" ∨ s = "f" ∨ s = "F" ∨ s = "FALSE" ∨ s = "false" ∨ s = "False" then
    some false
  else none

/-- Result of `strconv.ParseFloat` when it returns a nil error; a finite value
is kept as the exact rational of the accepted text (rounding to binary64 is
abstracted; overflow to infinity, which Go reports as `ErrRange`, is checked
below). -/
inductive GoFloat where
  | finite (q : ℚ)
  | inf (neg : Bool)
  | nan
deriving DecidableEq

/-- ASCII lower-casing as `strconv`'s `lower`. -/
def lowerChar (c : Char) : Char :=
  if 'A' ≤ c ∧ c ≤ 'Z' then Char.ofNat (c.toNat + 32) else c

/-- Lower-cased copy of a string. -/
def strLower (s : String) : String := String.mk (s.toList.map lowerChar)

/-- `strconv.special`, as `ParseFloat` consults it on the whole input:
optionally signed `inf`/`infinity` (case-insensitive) and unsigned `nan`. -/
def goParseFloatSpecial (s : String) : Option GoFloat :=
  let t := strLower s
  if t = "inf" ∨ t = "+inf" ∨ t = "infinity" ∨ t = "+infinity" then some (.inf false)
  else if t = "-inf" ∨ t = "-infinity" then some (.inf true)
  else if t = "nan" then some .nan
  else none

/-- Digit value of `c` in the mantissa scan: decimal digits always, `a`-`f`
(either case) as well when scanning a hexadecimal mantissa. -/
def floatDigitVal (hexb : Bool) (c : Char) : Option Nat :=
  if c.isDigit then some (c.toNat - 48)
  else if hexb ∧ 'a' ≤ c ∧ c ≤ 'f' then some (c.toNat - 87)
  else if hexb ∧ 'A' ≤ c ∧ c ≤ 'F' then some (c.toNat - 55)
  else none

/-- State of `strconv.readFloat`'s mantissa loop: accumulated digits value,
count of digits after the dot, and the two `saw` flags. -/
structure MantScan where
  mant : Nat
  fracDigits : Nat
  sawDot : Bool
  sawDigits : Bool
deriving DecidableEq

/-- `strconv.readFloat`'s mantissa loop: consumes digits, at most one dot and
any underscores (placement checked separately by `underscoreOK`), stopping at
the first other character or a second dot. -/
def scanMant (hexb : Bool) : List Char → MantScan → MantScan × List Char
  | [], st => (st, [])
  | c :: cs, st =>
    if c = '_' then scanMant hexb cs st
    else if c = '.' then
      if st.sawDot then (st, c :: cs)
      else scanMant hexb cs { st with sawDot := true }
    else
      match floatDigitVal hexb c with
      | some d =>
        scanMant hexb cs
          { st with
            mant := st.mant * (if hexb then 16 else 10) + d
            fracDigits := if st.sawDot then st.fracDigits + 1 else st.fracDigits
            sawDigits := true }
      | none => (st, c :: cs)

/-- `strconv.readFloat`'s exponent loop: decimal digits and underscores, the
value capped below `10000` as in Go. -/
def scanExpDigits : List Char → Nat → Nat
  | [], e => e
  | c :: cs, e =>
    if c = '_' then scanExpDigits cs e
    else scanExpDigits cs (if e < 10000 then e * 10 + (c.toNat - 48) else e)

/-- `strconv.underscoreOK` marker automaton. `last` is the kind of the last
non-underscore mark: `0` start/sign, `1` base prefix, `2` digit, `3`
underscore, `4` other. An underscore must follow a digit or the base prefix
and be followed by a digit. -/
def underscoreOKAux (hexb : Bool) : Nat → List Char → Bool
  | last, [] => last ≠ 3
  | last, c :: cs =>
    if (floatDigitVal hexb c).isSome then underscoreOKAux hexb 2 cs
    else if c = '_' then
      if last = 1 ∨ last = 2 then underscoreOKAux hexb 3 cs else false
    else if last = 3 then false
    else underscoreOKAux hexb 4 cs

/-- `strconv.underscoreOK` on a full `ParseFloat` input: skip one sign, note a
`0x` base prefix, then run the marker automaton. -/
def underscoreOK (s : String) : Bool :=
  let cs := s.toList
  let cs1 := match cs with
    | '+' :: rest => rest
    | '-' :: rest => rest
    | _ => cs
  match cs1 with
  | '0' :: x :: rest =>
    if x = 'x' ∨ x = 'X' then underscoreOKAux true 1 rest
    else underscoreOKAux false 0 cs1
  | _ => underscoreOKAux false 0 cs1

/-- Smallest magnitude that rounds to infinity in binary64 (round to nearest,
ties to even): `2^1024 - 2^970`. `ParseFloat` reports `ErrRange` there. -/
def float64OverflowBound : ℚ := (2 : ℚ) ^ (1024 : ℕ) - (2 : ℚ) ^ (970 : ℕ)

/-- `strconv.ParseFloat(s, 64)` restricted to nil-error results: special
values, else an optional sign, a decimal mantissa with optional `e` exponent
or a `0x` hexadecimal mantissa with required `p` exponent, underscores
permitted where `underscoreOK` allows, the whole input consumed, and the
value finite after rounding. The finite value is kept as the exact rational
of the text (binary64 rounding abstracted). -/
def goParseFloat (s : String) : Option GoFloat :=
  match goParseFloatSpecial s with
  | some f => some f
  | none =>
    let cs := s.toList
    let (neg, cs1) := match cs with
      | '+' :: rest => (false, rest)
      | '-' :: rest => (true, rest)
      | _ => (false, cs)
    let (hexb, cs2) := match cs1 with
      | '0' :: x :: rest => if x = 'x' ∨ x = 'X' then (true, rest) else (false, cs1)
      | _ => (false, cs1)
    let (m, rest1) := scanMant hexb cs2 ⟨0, 0, false, false⟩
    if ¬ m.sawDigits then none
    else
      let finish : Int → Option GoFloat := fun e10or2 =>
        if s.toList.contains '_' ∧ ¬ underscoreOK s then none
        else
          let q : ℚ :=
            if hexb then
              (m.mant : ℚ) * (16 : ℚ) ^ (-(m.fracDigits : Int)) * (2 : ℚ) ^ e10or2
            else
              (m.mant : ℚ) * (10 : ℚ) ^ (e10or2 - (m.fracDigits : Int))
          if float64OverflowBound ≤ |q| then none
          else some (.finite (if neg then -q else q))
      match rest1 with
      | [] => if hexb then none else finish 0
      | e :: rest2 =>
        if (¬ hexb ∧ (e = 'e' ∨ e = 'E')) ∨ (hexb ∧ (e = 'p' ∨ e = 'P')) then
          let (esign, rest3) := match rest2 with
            | '+' :: r => ((1 : Int), r)
            | '-' :: r => ((-1 : Int), r)
            | _ => ((1 : Int), rest2)
          match rest3 with
          | [] => none
          | c :: _ =>
            if ¬ c.isDigit then none
            else
              let eds := rest3.takeWhile (fun ch => ch.isDigit ∨ ch = '_')
              let rest4 := rest3.dropWhile (fun ch => ch.isDigit ∨ ch = '_')
              if rest4 ≠ [] then none
              else finish (esign * (scanExpDigits eds 0 : Int))
        else none

/-- `time.ParseDuration`'s unit table: nanoseconds per unit suffix (`us` has
the two micro-sign spellings of Go's `unitMap`). -/
def unitVal (u : String) : Option Nat :=
  if u = "ns" then some 1
  else if u = "us" then some 1000
  else if u = "µs" then some 1000
  else if u = "μs" then some 1000
  else if u = "ms" then some 1000000
  else if u = "s" then some 1000000000
  else if u = "m" then some 60000000000
  else if u = "h" then some 3600000000000
  else none

/-- `time.leadingFraction`: consume fraction digits into `x` with its scale,
ignoring further digits once `x` would pass `2^63` (Go's overflow guard). -/
def fracScan (ds : List Char) : Nat × Nat :=
  let step : Nat × Nat × Bool → Char → Nat × Nat × Bool := fun st c =>
    let (x, sc, ov) := st
    if ov then (x, sc, ov)
    else if (2 ^ 63 - 1) / 10 < x then (x, sc, true)
    else
      let y := x * 10 + (c.toNat - 48)
      if 2 ^ 63 < y then (x, sc, true) else (y, sc * 10, false)
  let (x, sc, _) := ds.foldl step (0, 1, false)
  (x, sc)

/-- The `for s != ""` loop of `time.ParseDuration`, fuelled by the input
length: each round reads digits (`leadingInt`, error past `2^63`), an optional
fraction, and a unit, with Go's three overflow checks, accumulating
nanoseconds in `d`. The fractional contribution `f * (unit / scale)`, which Go
computes in `float64` and truncates, is the exact `(f * unit) / scale` here
(Go's binary rounding on more than 15 fraction digits is abstracted). -/
def durLoop : Nat → List Char → Nat → Option Nat
  | _, [], d => some d
  | 0, _ :: _, _ => none
  | fuel + 1, c :: cs, d =>
    if ¬ (c.isDigit ∨ c = '.') then none
    else
      let s0 := c :: cs
      let intDs := s0.takeWhile Char.isDigit
      let rest1 := s0.dropWhile Char.isDigit
      let v := natOfDigits intDs
      if 2 ^ 63 < v then none
      else
        let pre : Bool := ¬ intDs.isEmpty
        let (post, f, scale, rest2) :=
          match rest1 with
          | '.' :: cs2 =>
            let fds := cs2.takeWhile Char.isDigit
            let (fv, sc) := fracScan fds
            ((¬ fds.isEmpty : Bool), fv, sc, cs2.dropWhile Char.isDigit)
          | _ => ((false : Bool), 0, 1, rest1)
        if ¬ pre ∧ ¬ post then none
        else
          let notUnit : Char → Bool := fun ch => ¬ (ch = '.' ∨ ch.isDigit)
          let uChars := rest2.takeWhile notUnit
          let rest3 := rest2.dropWhile notUnit
          if uChars = [] then none
          else
            match unitVal (String.mk uChars) with
            | none => none
            | some unit =>
              if 2 ^ 63 / unit < v then none
              else
                let v1 := v * unit
                let v2 := if 0 < f then v1 + (f * unit) / scale else v1
                if 2 ^ 63 < v2 then none
                else
                  let d1 := d + v2
                  if 2 ^ 63 < d1 then none
                  else durLoop fuel rest3 d1

/-- `time.ParseDuration`: one optional sign, the special case `0`, then the
group loop; the result is nanoseconds as a signed 64-bit value (`none` for
every input Go rejects, including the final `d > 2^63 - 1` range check). -/
def goParseDuration (s : String) : Option Int :=
  let cs := s.toList
  let (neg, cs1) := match cs with
    | '-' :: rest => (true, rest)
    | '+' :: rest => (false, rest)
    | _ => (false, cs)
  if cs1 = ['0'] then some 0
  else if cs1 = [] then none
  else
    match durLoop cs1.length cs1 0 with
    | none => none
    | some d =>
      if neg then some (-(d : Int))
      else if 2 ^ 63 - 1 < d then none
      else some (d : Int)

/-- The error cases of the typed getters: the key is absent from the snapshot
(the spec's `NotFoundError`) or the stored string does not parse in the
requested type (the spec's `ParseError`, i.e. the non-nil error of the
`strconv`/`time` parse call). -/
inductive GetError where
  | notFoundError
  | parseError
deriving DecidableEq

/-- `RedisConfigManager.GetInt`: read the snapshot under `RLock`, `NotFound`
when absent, else `strconv.Atoi`. -/
def getInt (st : RCMState) (key : String) : Except GetError Int :=
  match mapGet st.config key with
  | none => .error .notFoundError
  | some v =>
    match goAtoi v with
    | none => .error .parseError
    | some n => .ok n

/-- `RedisConfigManager.GetFloat`: lookup then `strconv.ParseFloat(v, 64)`. -/
def getFloat (st : RCMState) (key : String) : Except GetError GoFloat :=
  match mapGet st.config key with
  | none => .error .notFoundError
  | some v =>
    match goParseFloat v with
    | none => .error .parseError
    | some q => .ok q

/-- `RedisConfigManager.GetString`: lookup only; a present value is returned
as stored, with no parsing. -/
def getString (st : RCMState) (key : String) : Except GetError String :=
  match mapGet st.config key with
  | none => .error .notFoundError
  | some v => .ok v

/-- `RedisConfigManager.GetBool`: lookup then `strconv.ParseBool`. -/
def getBool (st : RCMState) (key : String) : Except GetError Bool :=
  match mapGet st.config key with
  | none => .error .notFoundError
  | some v =>
    match goParseBool v with
    | none => .error .parseError
    | some b => .ok b

/-- `RedisConfigManager.GetDuration`: lookup then `time.ParseDuration`;
durations are nanosecond counts. -/
def getDuration (st : RCMState) (key : String) : Except GetError Int :=
  match mapGet st.config key with
  | none => .error .notFoundError
  | some v =>
    match goParseDuration v with
    | none => .error .parseError
    | some d => .ok d

/-- `RedisConfigManager.GetIntWithDefault`: the getter's value, or the default
on any error. -/
def getIntWithDefault (st : RCMState) (key : String) (defaultValue : Int) : Int :=
  match getInt st key with
  | .error _ => defaultValue
  | .ok v => v

/-- `RedisConfigManager.GetFloatWithDefault`. -/
def getFloatWithDefault (st : RCMState) (key : String) (defaultValue : GoFloat) : GoFloat :=
  match getFloat st key with
  | .error _ => defaultValue
  | .ok v => v

/-- `RedisConfigManager.GetStringWithDefault`. -/
def getStringWithDefault (st : RCMState) (key : String) (defaultValue : String) : String :=
  match getString st key with
  | .error _ => defaultValue
  | .ok v => v

/-- `RedisConfigManager.GetBoolWithDefault`. -/
def getBoolWithDefault (st : RCMState) (key : String) (defaultValue : Bool) : Bool :=
  match getBool st key with
  | .error _ => defaultValue
  | .ok v => v

/-- `RedisConfigManager.GetDurationWithDefault`. -/
def getDurationWithDefault (st : RCMState) (key : String) (defaultValue : Int) : Int :=
  match getDuration st key with
  | .error _ => defaultValue
  | .ok v => v

/-- What `LoadConfig`'s two effectful steps can yield: the Redis `Get` fails
(`RetrievalError`), `json.Unmarshal` fails (`DecodeError`), or the payload
decodes into a `map[string]any`, given here as its entry list (distinct keys,
since it is a Go map). -/
inductive LoadInput where
  | fetchErr
  | badPayload
  | payload (kvs : List (String × GoValue))

/-- `LoadConfig`'s error taxonomy, per the spec's names. -/
inductive LoadError where
  | retrievalError
  | decodeError
deriving DecidableEq

/-- The decoded payload as a key to string mapping: each entry stringified by
`fmt.Sprintf("%v", value)`. -/
def decodePayload (kvs : List (String × GoValue)) : List (String × String) :=
  kvs.map (fun kv => (kv.1, goFormatValue kv.2))

/-- The write loop of `LoadConfig`:
`for key, value := range rawConfigMap { rcm.config[key] = fmt.Sprintf("%v", value) }`. -/
def applyPayload (m : List (String × String)) (kvs : List (String × GoValue)) :
    List (String × String) :=
  kvs.foldl (fun acc kv => mapSet acc kv.1 (goFormatValue kv.2)) m

/-- `RedisConfigManager.LoadConfig`: return `RetrievalError` or `DecodeError`
with the state untouched, else write every payload entry into the existing
`config` map and set `updatedAt` to the current time. -/
def loadConfig (st : RCMState) (inp : LoadInput) (now : Nat) : RCMState × Option LoadError :=
  match inp with
  | .fetchErr => (st, some .retrievalError)
  | .badPayload => (st, some .decodeError)
  | .payload kvs => ({ config := applyPayload st.config kvs, updatedAt := now }, none)

/-- Last entry of the payload list for a key, i.e. the value a `range` loop of
Go map writes leaves in place (a decoded JSON object has distinct keys, so
first and last coincide there). -/
def lastLookup (kvs : List (String × GoValue)) (k : String) : Option GoValue :=
  match kvs with
  | [] => none
  | kv :: rest =>
    match lastLookup rest k with
    | some v => some v
    | none => if kv.1 = k then some kv.2 else none

theorem mapGet_mapSet (m : List (String × String)) (k v k' : String) :
    mapGet (mapSet m k v) k' = if k = k' then some v else mapGet m k' := by
  induction m with
  | nil => simp [mapSet, mapGet]
  | cons hd tl ih =>
    obtain ⟨k0, v0⟩ := hd
    by_cases h : k0 = k
    · subst h
      simp only [mapSet, if_pos rfl, mapGet]
      split_ifs <;> simp_all [mapGet]
    · simp only [mapSet, if_neg h, mapGet, ih]
      split_ifs <;> simp_all

theorem mapGet_applyPayload (kvs : List (String × GoValue)) (m : List (String × String))
    (k : String) :
    mapGet (applyPayload m kvs) k =
      (lastLookup kvs k).elim (mapGet m k) (fun v => some (goFormatValue v)) := by
  induction kvs generalizing m with
  | nil => simp [applyPayload, lastLookup]
  | cons kv rest ih =>
    have hfold : applyPayload m (kv :: rest)
        = applyPayload (mapSet m kv.1 (goFormatValue kv.2)) rest := rfl
    rw [hfold, ih]
    cases h : lastLookup rest k with
    | some v => simp [lastLookup, h]
    | none =>
      simp only [lastLookup, h, mapGet_mapSet, Option.elim]
      split_ifs <;> simp_all

theorem lastLookup_eq_none (kvs : List (String × GoValue)) (k : String)
    (h : k ∉ kvs.map Prod.fst) : lastLookup kvs k = none := by
  induction kvs with
  | nil => rfl
  | cons kv rest ih =>
    simp only [List.map_cons, List.mem_cons] at h
    push_neg at h
    have hk : ¬ kv.1 = k := fun hk => h.1 hk.symm
    simp [lastLookup, ih h.2, hk]

theorem mapGet_decodePayload (kvs : List (String × GoValue)) (k : String)
    (h : (kvs.map Prod.fst).Nodup) :
    mapGet (decodePayload kvs) k = (lastLookup kvs k).map goFormatValue := by
  induction kvs with
  | nil => rfl
  | cons kv rest ih =>
    rw [List.map_cons, List.nodup_cons] at h
    by_cases hk : kv.1 = k
    · subst hk
      rw [lastLookup, lastLookup_eq_none rest kv.1 h.1]
      simp [decodePayload, mapGet]
    · simp only [decodePayload, List.map_cons, mapGet, if_neg hk]
      rw [show mapGet (List.map (fun kv => (kv.1, goFormatValue kv.2)) rest) k
            = mapGet (decodePayload rest) k from rfl, ih h.2, lastLookup]
      cases hr : lastLookup rest k with
      | some v => simp
      | none => simp [if_neg hk]

/-- C1, counterexample: `LoadConfig` does not replace the snapshot wholesale.
Starting from a snapshot holding `old ↦ x` and loading a payload whose only
key is `new`, the call succeeds, yet `old` is still present in the snapshot
afterwards although it is absent from the mapping decoded from the payload —
the snapshot mixes a previous entry with the new payload's entries. -/
theorem C1_counterexample :
    (loadConfig ⟨[("old", "x")], 0⟩ (.payload [("new", .vStr "y")]) 1).2 = none ∧
    mapGet (loadConfig ⟨[("old", "x")], 0⟩ (.payload [("new", .vStr "y")]) 1).1.config "old"
      = some "x" ∧
    mapGet (decodePayload [("new", .vStr "y")]) "old" = none :=
  ⟨rfl, rfl, rfl⟩

/-- C1, amended: after every successful `LoadConfig`, each payload key maps in
the snapshot to its stringified payload value, but a key absent from the
payload keeps its previous entry — the decoded payload is merged into the
snapshot, not a wholesale replacement, so entries of the previous snapshot
can survive alongside the new ones. -/
theorem C1_load_merges_payload (st : RCMState) (kvs : List (String × GoValue)) (now : Nat)
    (h : (kvs.map Prod.fst).Nodup) :
    (loadConfig st (.payload kvs) now).2 = none ∧
    (loadConfig st (.payload kvs) now).1.updatedAt = now ∧
    ∀ k, mapGet (loadConfig st (.payload kvs) now).1.config k
      = (mapGet (decodePayload kvs) k).elim (mapGet st.config k) some := by
  refine ⟨rfl, rfl, fun k => ?_⟩
  show mapGet (applyPayload st.config kvs) k = _
  rw [mapGet_applyPayload, mapGet_decodePayload kvs k h]
  cases lastLookup kvs k <;> simp

/-- C1, witness for the amended theorem at a concrete state: loading the
payload `[new ↦ "y"]` over the snapshot `[old ↦ "x"]` leaves `old ↦ x` in
place and adds `new ↦ y`. -/
theorem C1_load_merges_payload_witness :
    mapGet (loadConfig ⟨[("old", "x")], 0⟩ (.payload [("new", .vStr "y")]) 1).1.config "new"
      = some "y" ∧
    mapGet (loadConfig ⟨[("old", "x")], 0⟩ (.payload [("new", .vStr "y")]) 1).1.config "old"
      = some "x" := by
  have h := C1_load_merges_payload ⟨[("old", "x")], 0⟩ [("new", .vStr "y")] 1 (by decide)
  exact ⟨by rw [h.2.2 "new"]; rfl, by rw [h.2.2 "old"]; rfl⟩

/-- C2, counterexample: for a snapshot in which `flag` holds the stored string
`1`, `GetBool` does not fail — `strconv.ParseBool` accepts `1`, so the call
returns `true` with no error. -/
theorem C2_counterexample :
    mapGet (RCMState.mk [("flag", "1")] 0).config "flag" = some "1" ∧
    getBool ⟨[("flag", "1")], 0⟩ "flag" = .ok true :=
  ⟨rfl, rfl⟩

/-- C2, amended: `GetBool` parses via `strconv.ParseBool`, which does coerce
the numeral strings `1` and `0`: whenever a key holds the stored string `1`,
`GetBool` returns `true` with no error (and no `ParseError`). -/
theorem C2_bool_accepts_one (st : RCMState) (key : String)
    (h : mapGet st.config key = some "1") :
    getBool st key = .ok true := by
  simp [getBool, h, goParseBool]

/-- C2, witness: the amended theorem applied at the concrete snapshot
`[flag ↦ "1"]`. -/
theorem C2_bool_accepts_one_witness : getBool ⟨[("flag", "1")], 0⟩ "flag" = .ok true :=
  C2_bool_accepts_one ⟨[("flag", "1")], 0⟩ "flag" rfl

/-- C3: a failed refresh is all-or-nothing. When the remote fetch fails,
`LoadConfig` returns `RetrievalError`, and when the payload cannot be decoded
it returns `DecodeError`; in both cases the state — the whole snapshot and the
last-updated timestamp — is exactly the state before the call. -/
theorem C3_failure_keeps_state (st : RCMState) (now : Nat) :
    loadConfig st .fetchErr now = (st, some .retrievalError) ∧
    loadConfig st .badPayload now = (st, some .decodeError) :=
  ⟨rfl, rfl⟩

/-- C4: for every key present in the snapshot whose stored string is valid
text for the requested type, the typed getter returns the decoded value with
no error — for each of the five types, with validity and decoded value given
by the corresponding Go parse function (`GetString` returns every stored
string as is). -/
theorem C4_valid_text_decodes (st : RCMState) (key s : String)
    (h : mapGet st.config key = some s) :
    (∀ n, goAtoi s = some n → getInt st key = .ok n) ∧
    (∀ q, goParseFloat s = some q → getFloat st key = .ok q) ∧
    getString st key = .ok s ∧
    (∀ b, goParseBool s = some b → getBool st key = .ok b) ∧
    (∀ d, goParseDuration s = some d → getDuration st key = .ok d) := by
  refine ⟨fun n hn => ?_, fun q hq => ?_, ?_, fun b hb => ?_, fun d hd => ?_⟩
  · simp [getInt, h, hn]
  · simp [getFloat, h, hq]
  · simp [getString, h]
  · simp [getBool, h, hb]
  · simp [getDuration, h, hd]

/-- C4, witness at the snapshot `[k ↦ "1"]`: the stored string `1` is valid
text for int, float, string and bool at once, and the getters decode it. -/
theorem C4_valid_text_decodes_witness :
    getInt ⟨[("k", "1")], 0⟩ "k" = .ok 1 ∧
    getFloat ⟨[("k", "1")], 0⟩ "k" = .ok (.finite 1) ∧
    getString ⟨[("k", "1")], 0⟩ "k" = .ok "1" ∧
    getBool ⟨[("k", "1")], 0⟩ "k" = .ok true := by
  have h := C4_valid_text_decodes ⟨[("k", "1")], 0⟩ "k" "1" rfl
  have hq : goParseFloat "1" = some (.finite 1) := by
    simp +decide only [goParseFloat, goParseFloatSpecial, strLower, lowerChar, scanMant,
      floatDigitVal, float64OverflowBound]
    norm_num [show '1'.toNat - 48 = 1 from rfl]
  exact ⟨h.1 1 (by decide), h.2.1 (.finite 1) hq, h.2.2.1,
    h.2.2.2.1 true (by decide)⟩

/-- C5: for every key absent from the snapshot, each of the five typed
getters returns `NotFoundError`, and each of the five default-valued variants
returns exactly the supplied default. -/
theorem C5_absent_key (st : RCMState) (key : String) (h : mapGet st.config key = none) :
    getInt st key = .error .notFoundError ∧
    getFloat st key = .error .notFoundError ∧
    getString st key = .error .notFoundError ∧
    getBool st key = .error .notFoundError ∧
    getDuration st key = .error .notFoundError ∧
    (∀ d, getIntWithDefault st key d = d) ∧
    (∀ d, getFloatWithDefault st key d = d) ∧
    (∀ d, getStringWithDefault st key d = d) ∧
    (∀ d, getBoolWithDefault st key d = d) ∧
    (∀ d, getDurationWithDefault st key d = d) := by
  refine ⟨?_, ?_, ?_, ?_, ?_, fun d => ?_, fun d => ?_, fun d => ?_, fun d => ?_, fun d => ?_⟩ <;>
    simp [getInt, getFloat, getString, getBool, getDuration, getIntWithDefault,
      getFloatWithDefault, getStringWithDefault, getBoolWithDefault, getDurationWithDefault, h]

/-- C5, witness at the empty snapshot and the key `missing`: two of the
not-found errors and two returned defaults, concretely. -/
theorem C5_absent_key_witness :
    getInt ⟨[], 0⟩ "missing" = .error .notFoundError ∧
    getDuration ⟨[], 0⟩ "missing" = .error .notFoundError ∧
    getIntWithDefault ⟨[], 0⟩ "missing" 7 = 7 ∧
    getStringWithDefault ⟨[], 0⟩ "missing" "fallback" = "fallback" := by
  have h := C5_absent_key ⟨[], 0⟩ "missing" rfl
  exact ⟨h.1, h.2.2.2.2.1, h.2.2.2.2.2.1 7, h.2.2.2.2.2.2.2.1 "fallback"⟩

/-- C6: for a key present with stored string `s` — when `s` is invalid text
for the requested type the typed getter returns `ParseError` and the default
variant the supplied default; and in general each default variant returns the
getter's value whenever the getter succeeds and the default on any failure
(not-found or parse), so it never fails. -/
theorem C6_defaults_swallow_failures (st : RCMState) (key s : String)
    (h : mapGet st.config key = some s) :
    (goAtoi s = none → getInt st key = .error .parseError ∧
      ∀ d, getIntWithDefault st key d = d) ∧
    (goParseFloat s = none → getFloat st key = .error .parseError ∧
      ∀ d, getFloatWithDefault st key d = d) ∧
    (goParseBool s = none → getBool st key = .error .parseError ∧
      ∀ d, getBoolWithDefault st key d = d) ∧
    (goParseDuration s = none → getDuration st key = .error .parseError ∧
      ∀ d, getDurationWithDefault st key d = d) ∧
    (∀ v, getInt st key = .ok v → ∀ d, getIntWithDefault st key d = v) ∧
    (∀ v, getFloat st key = .ok v → ∀ d, getFloatWithDefault st key d = v) ∧
    (∀ v, getString st key = .ok v → ∀ d, getStringWithDefault st key d = v) ∧
    (∀ v, getBool st key = .ok v → ∀ d, getBoolWithDefault st key d = v) ∧
    (∀ v, getDuration st key = .ok v → ∀ d, getDurationWithDefault st key d = v) ∧
    (∀ e, getInt st key = .error e → ∀ d, getIntWithDefault st key d = d) ∧
    (∀ e, getFloat st key = .error e → ∀ d, getFloatWithDefault st key d = d) ∧
    (∀ e, getString st key = .error e → ∀ d, getStringWithDefault st key d = d) ∧
    (∀ e, getBool st key = .error e → ∀ d, getBoolWithDefault st key d = d) ∧
    (∀ e, getDuration st key = .error e → ∀ d, getDurationWithDefault st key d = d) := by
  refine ⟨fun hp => ⟨?_, fun d => ?_⟩, fun hp => ⟨?_, fun d => ?_⟩, fun hp => ⟨?_, fun d => ?_⟩,
    fun hp => ⟨?_, fun d => ?_⟩, fun v hv d => ?_, fun v hv d => ?_, fun v hv d => ?_,
    fun v hv d => ?_, fun v hv d => ?_, fun e he d => ?_, fun e he d => ?_, fun e he d => ?_,
    fun e he d => ?_, fun e he d => ?_⟩ <;>
    simp_all [getInt, getFloat, getString, getBool, getDuration, getIntWithDefault,
      getFloatWithDefault, getStringWithDefault, getBoolWithDefault, getDurationWithDefault, h]

/-- C6, witness at the snapshot `[k ↦ "abc"]`: `abc` parses in no type but
string, so `GetInt` yields `ParseError`, `GetIntWithDefault` the default, and
`GetStringWithDefault` the successfully read stored string. -/
theorem C6_defaults_swallow_failures_witness :
    getInt ⟨[("k", "abc")], 0⟩ "k" = .error .parseError ∧
    getIntWithDefault ⟨[("k", "abc")], 0⟩ "k" 5 = 5 ∧
    getBoolWithDefault ⟨[("k", "abc")], 0⟩ "k" true = true ∧
    getStringWithDefault ⟨[("k", "abc")], 0⟩ "k" "z" = "abc" := by
  have h := C6_defaults_swallow_failures ⟨[("k", "abc")], 0⟩ "k" "abc" rfl
  exact ⟨(h.1 (by decide)).1, (h.1 (by decide)).2 5, (h.2.2.1 (by decide)).2 true,
    h.2.2.2.2.2.2.1 "abc" rfl "z"⟩

/-- C7: refreshing twice from an unchanged remote payload is idempotent on the
snapshot — after the second `LoadConfig` the snapshot is value-equal (the
same key to string mapping) to the snapshot after the first, and only the
last-updated timestamp is changed, to the second call's time. -/
theorem C7_idempotent_refresh (st : RCMState) (kvs : List (String × GoValue)) (n1 n2 : Nat) :
    (∀ k,
      mapGet (loadConfig (loadConfig st (.payload kvs) n1).1 (.payload kvs) n2).1.config k
        = mapGet (loadConfig st (.payload kvs) n1).1.config k) ∧
    (loadConfig (loadConfig st (.payload kvs) n1).1 (.payload kvs) n2).1.updatedAt = n2 ∧
    (loadConfig st (.payload kvs) n1).1.updatedAt = n1 := by
  refine ⟨fun k => ?_, rfl, rfl⟩
  show mapGet (applyPayload (applyPayload st.config kvs) kvs) k
    = mapGet (applyPayload st.config kvs) k
  rw [mapGet_applyPayload, mapGet_applyPayload]
  cases lastLookup kvs k <;> simp

/-- The end-to-end payload of the specification:
`{"int_key":42,"float_key":3.14,"string_key":"test_value","bool_key":true,"duration_key":"5s"}`
as decoded by `encoding/json` (numbers as `float64`, here in shortest decimal
form: `42 = 0.42e2`, `3.14 = 0.314e1`). -/
def kvs8 : List (String × GoValue) :=
  [("int_key", .vNum false [4, 2] 2),
   ("float_key", .vNum false [3, 1, 4] 1),
   ("string_key", .vStr "test_value"),
   ("bool_key", .vBool true),
   ("duration_key", .vStr "5s")]

/-- C8: after one successful `LoadConfig` of the end-to-end payload into a
fresh store, `GetInt("int_key")` returns `42` with no error,
`GetDuration("duration_key")` returns 5 seconds (5000000000 ns) with no
error, and `GetString("missing")` fails with `NotFoundError`. -/
theorem C8_end_to_end :
    getInt (loadConfig ⟨[], 0⟩ (.payload kvs8) 1).1 "int_key" = .ok 42 ∧
    getDuration (loadConfig ⟨[], 0⟩ (.payload kvs8) 1).1 "duration_key" = .ok 5000000000 ∧
    getString (loadConfig ⟨[], 0⟩ (.payload kvs8) 1).1 "missing" = .error .notFoundError :=
  ⟨rfl, rfl, rfl⟩

/-- C10: `LoadConfig` stores every JSON number through `float64` and
`%v` formatting, so the valid JSON integer `10000000` (the `float64`
`0.1e8`, whose shortest-`%g` rendering is scientific) is stored as the
string `1e+07`, and `GetInt` on that key then fails with `ParseError`
although the remote held a valid integer. -/
theorem C10_float_formatting_breaks_getInt :
    goFormatValue (.vNum false [1] 8) = "1e+07" ∧
    mapGet (loadConfig ⟨[], 0⟩ (.payload [("big_key", .vNum false [1] 8)]) 1).1.config "big_key"
      = some "1e+07" ∧
    getInt (loadConfig ⟨[], 0⟩ (.payload [("big_key", .vNum false [1] 8)]) 1).1 "big_key"
      = .error .parseError :=
  ⟨rfl, rfl, rfl⟩
